import Mathlib

/-!
A shallow embedding of `deepchem/feat/molecule_featurizers/dmpnn_featurizer.py`:
the featurization constants, the atom/bond feature encoders, the
reactant-to-product atom mapper `map_reac_to_prod`, and the `_MapperDMPNN`
directed-bond indexing algorithm, together with proofs of the behavioural
properties claimed about them.

Numeric feature entries are modelled as rationals; machine floats only ever
hold small integers (0/1 flags) and the downscaled mass in this code, so no
rounding behaviour is lost.  Directed-bond ids and atom indices are naturals,
exactly as in the Python source.
-/

/-- An RDKit atom, reduced to the properties the featurizer reads
(`GetAtomicNum`, `GetTotalDegree`, `GetFormalCharge`, `GetChiralTag`,
`GetTotalNumHs`, `GetHybridization`, `GetIsAromatic`, `GetMass`). -/
structure RDAtom where
  atomicNum : Int
  totalDegree : Int
  formalCharge : Int
  chiralTag : Int
  totalNumHs : Int
  hybridization : String
  isAromatic : Bool
  mass : Rat

/-- Modelled from the spec: a bond as seen by this file.  The only bond data the
featurizer reads is the vector of 13 structural descriptors supplied by the
external bond-feature primitive `b_Feats` (bond type one-hot, conjugation flag,
ring membership, stereo one-hot), which is not part of this file; it is kept
as an uninterpreted field. -/
structure RDBond where
  descriptors : List Rat

/-- An RDKit molecule, reduced to what `_MapperDMPNN` queries: the pairwise
bond lookup `GetBondBetweenAtoms` over 0-indexed atom indices, returning the
bond when one exists. -/
structure RDMol where
  GetBondBetweenAtoms : Nat → Nat → Option RDBond

namespace GraphConvConstants

def MAX_ATOMIC_NUM : Nat := 100

def ATOM_FEATURES_atomic_num : List Int := (List.range MAX_ATOMIC_NUM).map Int.ofNat

def ATOM_FEATURES_degree : List Int := [0, 1, 2, 3, 4, 5]

def ATOM_FEATURES_formal_charge : List Int := [-1, -2, 1, 2, 0]

def ATOM_FEATURES_chiral_tag : List Int := [0, 1, 2, 3]

def ATOM_FEATURES_num_Hs : List Int := [0, 1, 2, 3, 4]

def ATOM_FEATURES_HYBRIDIZATION : List String := ["SP", "SP2", "SP3", "SP3D", "SP3D2"]

/-- Dimension of the atom feature vector: one slot per allowed category plus an
unknown bucket for each one-hot field, plus the hybridization one-hot with its
unknown bucket, plus 2 for the aromaticity flag and the mass. -/
def ATOM_FDIM : Nat :=
  ((ATOM_FEATURES_atomic_num.length + 1) + (ATOM_FEATURES_degree.length + 1) +
      (ATOM_FEATURES_formal_charge.length + 1) + (ATOM_FEATURES_chiral_tag.length + 1) +
      (ATOM_FEATURES_num_Hs.length + 1)) +
    ATOM_FEATURES_HYBRIDIZATION.length + 1 + 2

def BOND_FDIM : Nat := 14

end GraphConvConstants

/-- Modelled from the spec: the one-hot encoding primitive `one_hot_encode`
(imported from `deepchem.utils.molecule_feature_utils`, not part of this file).
Given a value and an allowed ordered category set, produce a vector of length
of the set (plus one if the unknown bucket is enabled); the slot matching the
value is 1; an unmatched value sets the extra trailing slot when the unknown
bucket is enabled and yields an all-zero vector otherwise. -/
def one_hot_encode {α : Type} [DecidableEq α] (val : α) (allowable_set : List α)
    (include_unknown_set : Bool) : List Rat :=
  (allowable_set.map fun c => if c = val then (1 : Rat) else 0) ++
    (if include_unknown_set then [if val ∈ allowable_set then (0 : Rat) else 1] else [])

/-- One-hot feature of the atomic number: the encoded value is the atomic
number minus 1. -/
def get_atomic_num_one_hot (atom : RDAtom) (allowable_set : List Int)
    (include_unknown_set : Bool) : List Rat :=
  one_hot_encode (atom.atomicNum - 1) allowable_set include_unknown_set

/-- One-hot feature of the chirality tag of the given atom. -/
def get_atom_chiral_tag_one_hot (atom : RDAtom) (allowable_set : List Int)
    (include_unknown_set : Bool) : List Rat :=
  one_hot_encode atom.chiralTag allowable_set include_unknown_set

/-- Downscaled mass of the given atom (mass times 0.01), as a singleton vector. -/
def get_atom_mass (atom : RDAtom) : List Rat :=
  [atom.mass * (1 / 100)]

/-- Modelled from the spec: `get_atom_total_degree_one_hot` (imported from
`deepchem.utils.molecule_feature_utils`): one-hot of the atom's total degree
with the unknown bucket enabled. -/
def get_atom_total_degree_one_hot (atom : RDAtom) (allowable_set : List Int) : List Rat :=
  one_hot_encode atom.totalDegree allowable_set true

/-- Modelled from the spec: `get_atom_formal_charge_one_hot` (imported from
`deepchem.utils.molecule_feature_utils`): one-hot of the atom's formal charge
with the unknown bucket enabled. -/
def get_atom_formal_charge_one_hot (atom : RDAtom) (allowable_set : List Int) : List Rat :=
  one_hot_encode atom.formalCharge allowable_set true

/-- Modelled from the spec: `get_atom_total_num_Hs_one_hot` (imported from
`deepchem.utils.molecule_feature_utils`): one-hot of the atom's total hydrogen
count with the unknown bucket enabled. -/
def get_atom_total_num_Hs_one_hot (atom : RDAtom) (allowable_set : List Int) : List Rat :=
  one_hot_encode atom.totalNumHs allowable_set true

/-- Modelled from the spec: `get_atom_hybridization_one_hot` (imported from
`deepchem.utils.molecule_feature_utils`): one-hot of the atom's hybridization
category against the allowed category names. -/
def get_atom_hybridization_one_hot (atom : RDAtom) (allowable_set : List String)
    (include_unknown_set : Bool) : List Rat :=
  one_hot_encode atom.hybridization allowable_set include_unknown_set

/-- Modelled from the spec: `get_atom_is_in_aromatic_one_hot` (imported from
`deepchem.utils.molecule_feature_utils`): the aromaticity flag as a singleton
0/1 vector. -/
def get_atom_is_in_aromatic_one_hot (atom : RDAtom) : List Rat :=
  [if atom.isAromatic then (1 : Rat) else 0]

/-- Atom feature vector of `_MapperDMPNN`'s helper `atom_features`.  A missing
atom (the Python `None`) yields the all-zero padding vector of length
`ATOM_FDIM`; the atomic-number-only mode zero-fills everything past the
atomic-number one-hot; the full mode concatenates all one-hot fields, the
aromaticity flag, the downscaled mass and the optional functional-group
vector. -/
def atom_features (atom : Option RDAtom) (functional_groups : Option (List Rat))
    (only_atom_num : Bool) : List Rat :=
  match atom with
  | none => List.replicate GraphConvConstants.ATOM_FDIM 0
  | some a =>
    if only_atom_num then
      get_atomic_num_one_hot a GraphConvConstants.ATOM_FEATURES_atomic_num true ++
        List.replicate (GraphConvConstants.ATOM_FDIM - GraphConvConstants.MAX_ATOMIC_NUM - 1) 0
    else
      let fs :=
        get_atomic_num_one_hot a GraphConvConstants.ATOM_FEATURES_atomic_num true ++
          get_atom_total_degree_one_hot a GraphConvConstants.ATOM_FEATURES_degree ++
          get_atom_formal_charge_one_hot a GraphConvConstants.ATOM_FEATURES_formal_charge ++
          get_atom_chiral_tag_one_hot a GraphConvConstants.ATOM_FEATURES_chiral_tag true ++
          get_atom_total_num_Hs_one_hot a GraphConvConstants.ATOM_FEATURES_num_Hs ++
          get_atom_hybridization_one_hot a GraphConvConstants.ATOM_FEATURES_HYBRIDIZATION true ++
          get_atom_is_in_aromatic_one_hot a
      let fs := fs ++ get_atom_mass a
      match functional_groups with
      | some fg => fs ++ fg
      | none => fs

/-- Bond feature vector: a missing bond (the Python `None`) yields the no-bond
sentinel, 1 followed by `BOND_FDIM - 1` zeros; a real bond yields 0 followed by
the 13 structural descriptors supplied by the external primitive. -/
def bond_features (bond : Option RDBond) : List Rat :=
  match bond with
  | none => 1 :: List.replicate (GraphConvConstants.BOND_FDIM - 1) 0
  | some b => 0 :: b.descriptors

/-! ### map_reac_to_prod

Reactant and product molecules are represented by their lists of atom-map
numbers (`GetAtomMapNum` of each atom, in atom-index order, so `GetIdx` is the
list position).  The product-side dictionary `prod_map_to_id` is represented as
a function from map number to optional atom index, updated with overwrite
exactly as a Python dict; the `try`/`except KeyError` of the reactant scan is
the `Option` match. -/

/-- One step of the product-side scan of `map_reac_to_prod`: `p` is the pair
(atom index, map number); a positive map number is recorded in the
map-number-to-index table (overwriting) and, when absent from the reactant's
map-number set, the atom index joins the only-product list; a zero map number
always joins the only-product list. -/
def prod_scan_step (mapnos_reac : List Nat) (st : (Nat → Option Nat) × List Nat)
    (p : Nat × Nat) : (Nat → Option Nat) × List Nat :=
  if 0 < p.2 then
    ((fun k => if k = p.2 then some p.1 else st.1 k),
      if p.2 ∈ mapnos_reac then st.2 else st.2 ++ [p.1])
  else (st.1, st.2 ++ [p.1])

/-- One step of the reactant-side scan of `map_reac_to_prod`: a positive map
number found in the product table records the reactant-index to product-index
pair; a failed lookup or a zero map number appends the reactant index to the
only-reactant list. -/
def reac_scan_step (pm : Nat → Option Nat) (st : List (Nat × Nat) × List Nat)
    (p : Nat × Nat) : List (Nat × Nat) × List Nat :=
  if 0 < p.2 then
    match pm p.2 with
    | some pid => (st.1 ++ [(p.1, pid)], st.2)
    | none => (st.1, st.2 ++ [p.1])
  else (st.1, st.2 ++ [p.1])

/-- The product-side scan: builds the map-number-to-product-index table and the
only-product exclusion list. -/
def prod_map_to_id (mol_reac mol_prod : List Nat) : (Nat → Option Nat) × List Nat :=
  mol_prod.enum.foldl (prod_scan_step mol_reac) ((fun _ => none), [])

/-- `map_reac_to_prod`: the reactant-index to product-index dictionary (as an
association list in insertion order), the only-product atom index list, and the
only-reactant atom index list. -/
def map_reac_to_prod (mol_reac mol_prod : List Nat) :
    List (Nat × Nat) × List Nat × List Nat :=
  let s1 := prod_map_to_id mol_reac mol_prod
  let s2 := mol_reac.enum.foldl (reac_scan_step s1.1) ([], [])
  (s2.1, s1.2, s2.2)

/-! ### The `_MapperDMPNN` directed-bond indexer -/

/-- The mutable state of `_MapperDMPNN` during Phase 1 discovery. -/
structure MapperState where
  num_bonds : Nat
  f_ini_atoms_bonds_zero_padded : List (List Rat)
  atom_to_incoming_bonds : List (List Nat)
  bond_to_ini_atom : List Nat
  b2revb : List Nat

/-- The state `_MapperDMPNN.__init__` sets up before `_generate_mapping` runs:
no bonds, one all-zero padding row in the concatenated feature table, an empty
incoming-bond list per atom (plus the padding atom 0), and the padding slot 0
in `bond_to_ini_atom` and `b2revb`. -/
def initState (concat_fdim num_atoms : Nat) : MapperState :=
  { num_bonds := 0
    f_ini_atoms_bonds_zero_padded := [List.replicate concat_fdim 0]
    atom_to_incoming_bonds := List.replicate (num_atoms + 1) []
    bond_to_ini_atom := [0]
    b2revb := [0] }

/-- One iteration of the Phase 1 discovery scan at the 1-indexed pair
`p = (a1, a2)`: when the molecule has a bond between the 0-indexed atoms
`a1 - 1` and `a2 - 1`, append the two concatenated rows
(`_update_concat_vector` / `_extend_concat_feature`), update
`atom_to_incoming_bonds`, `bond_to_ini_atom` and `b2revb`
(`_update_secondary_mappings`) and advance `num_bonds` by 2. -/
def processPair (mol : RDMol) (f_atoms_zero_padded : List (List Rat))
    (s : MapperState) (p : Nat × Nat) : MapperState :=
  match mol.GetBondBetweenAtoms (p.1 - 1) (p.2 - 1) with
  | none => s
  | some bond =>
    let f_bond := bond_features (some bond)
    let t1 := s.atom_to_incoming_bonds.set p.2
      (s.atom_to_incoming_bonds.getD p.2 [] ++ [s.num_bonds + 1])
    let t2 := t1.set p.1 (t1.getD p.1 [] ++ [s.num_bonds + 2])
    { num_bonds := s.num_bonds + 2
      f_ini_atoms_bonds_zero_padded := s.f_ini_atoms_bonds_zero_padded ++
        [f_atoms_zero_padded.getD p.1 [] ++ f_bond,
          f_atoms_zero_padded.getD p.2 [] ++ f_bond]
      atom_to_incoming_bonds := t2
      bond_to_ini_atom := s.bond_to_ini_atom ++ [p.1, p.2]
      b2revb := s.b2revb ++ [s.num_bonds + 2, s.num_bonds + 1] }

/-- The iteration order of the nested discovery loops of `_generate_mapping`:
all 1-indexed pairs `(a1, a2)` with `1 ≤ a1 < a2 ≤ num_atoms`, `a1` outermost,
in increasing lexicographic order. -/
def pairList (num_atoms : Nat) : List (Nat × Nat) :=
  (List.range' 1 num_atoms).flatMap fun a1 =>
    (List.range' (a1 + 1) (num_atoms - a1)).map fun a2 => (a1, a2)

/-- Phase 1 of `_generate_mapping`: the discovery scan, folded over the pair
list; `num_atoms` is the length of the zero-padded atom feature table minus
one, exactly as in `_MapperDMPNN.__init__`. -/
def phase1 (mol : RDMol) (concat_fdim : Nat)
    (f_atoms_zero_padded : List (List Rat)) : MapperState :=
  (pairList (f_atoms_zero_padded.length - 1)).foldl
    (processPair mol f_atoms_zero_padded)
    (initState concat_fdim (f_atoms_zero_padded.length - 1))

/-- The padding width of `_modify_based_on_max_bonds`: the maximum incoming
bond count over all atoms, but at least 1. -/
def max_num_bonds (atom_to_incoming_bonds : List (List Nat)) : Nat :=
  Nat.max 1 ((atom_to_incoming_bonds.map List.length).foldl Nat.max 0)

/-- `_modify_based_on_max_bonds`: right-pad every atom's incoming-bond list
with zeros up to the uniform width `max_num_bonds`, rebuilding the table over
atom indices 0 through `num_atoms`. -/
def modify_based_on_max_bonds (num_atoms : Nat)
    (a2ib : List (List Nat)) : List (List Nat) :=
  (List.range (num_atoms + 1)).map fun a =>
    a2ib.getD a [] ++ List.replicate (max_num_bonds a2ib - (a2ib.getD a []).length) 0

/-- The fancy-indexed construction of `self.mapping`:
`np.asarray(atom_to_incoming_bonds)[bond_to_ini_atom]` takes, for each directed
bond, a copy of the incoming-bond row of its initial atom. -/
def rawMapping (a2ib : List (List Nat)) (bond_to_ini_atom : List Nat) : List (List Nat) :=
  bond_to_ini_atom.map fun a => a2ib.getD a []

/-- Zero out every entry of a row equal to `r`:
`row[np.where(row == r)] = 0`. -/
def zeroOut (row : List Nat) (r : Nat) : List Nat :=
  row.map fun x => if x = r then 0 else x

/-- One iteration of `_replace_rev_bonds`: in row `count` of the mapping, zero
out the entries equal to `r` (the reverse id of directed bond `count`); no
other row is touched. -/
def scrubStep (mapping : List (List Nat)) (count r : Nat) : List (List Nat) :=
  mapping.set count (zeroOut (mapping.getD count []) r)

/-- `_replace_rev_bonds`: for every `(count, i)` in `enumerate(b2revb)`, zero
out the entries of mapping row `count` that equal `i`. -/
def replace_rev_bonds (mapping : List (List Nat)) (b2revb : List Nat) : List (List Nat) :=
  b2revb.enum.foldl (fun m p => scrubStep m p.1 p.2) mapping

/-- The fields of a fully constructed `_MapperDMPNN` object. -/
structure MapperResult where
  num_atoms : Nat
  num_bonds : Nat
  f_ini_atoms_bonds_zero_padded : List (List Rat)
  atom_to_incoming_bonds : List (List Nat)
  bond_to_ini_atom : List Nat
  b2revb : List Nat
  mapping : List (List Nat)

/-- `_MapperDMPNN` construction: `__init__` followed by `_generate_mapping`
(Phase 1 discovery, `_modify_based_on_max_bonds`, the fancy-indexed mapping,
and `_replace_rev_bonds`). -/
def mkMapper (mol : RDMol) (concat_fdim : Nat)
    (f_atoms_zero_padded : List (List Rat)) : MapperResult :=
  let num_atoms := f_atoms_zero_padded.length - 1
  let s := phase1 mol concat_fdim f_atoms_zero_padded
  let padded := modify_based_on_max_bonds num_atoms s.atom_to_incoming_bonds
  { num_atoms := num_atoms
    num_bonds := s.num_bonds
    f_ini_atoms_bonds_zero_padded := s.f_ini_atoms_bonds_zero_padded
    atom_to_incoming_bonds := padded
    bond_to_ini_atom := s.bond_to_ini_atom
    b2revb := s.b2revb
    mapping := replace_rev_bonds (rawMapping padded s.bond_to_ini_atom) s.b2revb }

/-! ### Specification helpers for the discovery scan -/

/-- Whether the discovery scan finds a bond at the 1-indexed pair `p`. -/
def bondedOn (mol : RDMol) (p : Nat × Nat) : Bool :=
  (mol.GetBondBetweenAtoms (p.1 - 1) (p.2 - 1)).isSome

/-- The undirected bonds the scan discovers, as the bonded pairs of the
iteration order. -/
def discoveredPairs (mol : RDMol) (num_atoms : Nat) : List (Nat × Nat) :=
  (pairList num_atoms).filter (bondedOn mol)

/-- The rows the discovery of pair `p` appends to the concatenated feature
table: source-atom features concatenated with the bond features, once per
direction. -/
def concatRows (mol : RDMol) (f_atoms : List (List Rat)) (p : Nat × Nat) : List (List Rat) :=
  match mol.GetBondBetweenAtoms (p.1 - 1) (p.2 - 1) with
  | none => []
  | some bond =>
    [f_atoms.getD p.1 [] ++ bond_features (some bond),
      f_atoms.getD p.2 [] ++ bond_features (some bond)]

/-- The tail of `b2revb` generated by the scan: the `j`-th discovered bond
(0-indexed, after an id offset of `2 * k`) contributes the reverse-id pair
`(2j + 2, 2j + 1)`. -/
def revbSpec : Nat → List (Nat × Nat) → List Nat
  | _, [] => []
  | k, _ :: rest => (2 * k + 2) :: (2 * k + 1) :: revbSpec (k + 1) rest

/-- The incoming-bond row of atom `a` generated by the scan over the discovered
pairs, with a pair-count offset of `k`: the `j`-th discovered pair `(a1, a2)`
contributes directed bond `2j + 1` to atom `a2`'s row and `2j + 2` to atom
`a1`'s row. -/
def rowSpecAux (a : Nat) : Nat → List (Nat × Nat) → List Nat
  | _, [] => []
  | k, p :: rest =>
    (if p.2 = a then [2 * k + 1] else if p.1 = a then [2 * k + 2] else []) ++
      rowSpecAux a (k + 1) rest

/-- The atom a directed bond points into: the initial atom of its reverse. -/
def bondTarget (s : MapperState) (b : Nat) : Nat :=
  s.bond_to_ini_atom.getD (s.b2revb.getD b 0) 0

/-- Strict lexicographic order on 1-indexed atom pairs. -/
def pairLt (p q : Nat × Nat) : Prop :=
  p.1 < q.1 ∨ (p.1 = q.1 ∧ p.2 < q.2)

/-! ### Concrete example molecules -/

/-- A 3-atom open chain 1-2-3: bonds between 0-indexed atoms (0,1) and (1,2). -/
def molChain : RDMol :=
  { GetBondBetweenAtoms := fun i j =>
      if (i = 0 ∧ j = 1) ∨ (i = 1 ∧ j = 2) then some { descriptors := List.replicate 13 0 }
      else none }

/-- A zero-padded atom feature table for three atoms (width 2). -/
def faChain : List (List Rat) := [[0, 0], [1, 0], [2, 0], [3, 0]]

/-- A molecule with no bonds at all. -/
def molNone : RDMol := { GetBondBetweenAtoms := fun _ _ => none }

/-! ### List helper lemmas -/

theorem getD_set_self {α : Type} : ∀ (l : List α) (i : Nat) (v d : α), i < l.length →
    (l.set i v).getD i d = v
  | [], _, _, _, h => absurd h (by simp)
  | _ :: _, 0, _, _, _ => rfl
  | _ :: l, i + 1, v, d, h => by
    simp only [List.set_cons_succ, List.getD_cons_succ]
    exact getD_set_self l i v d (by simpa using h)

theorem getD_set_ne {α : Type} : ∀ (l : List α) (i j : Nat) (v d : α), i ≠ j →
    (l.set i v).getD j d = l.getD j d
  | [], _, _, _, _, _ => by simp
  | _ :: _, 0, 0, _, _, hij => absurd rfl hij
  | _ :: _, 0, _ + 1, _, _, _ => by
    simp [List.set_cons_zero, List.getD_cons_succ]
  | _ :: _, _ + 1, 0, _, _, _ => by
    simp [List.set_cons_succ, List.getD_cons_zero]
  | _ :: l, i + 1, j + 1, v, d, hij => by
    simp only [List.set_cons_succ, List.getD_cons_succ]
    exact getD_set_ne l i j v d (fun h => hij (by rw [h]))

theorem getD_replicate {α : Type} (d : α) : ∀ (m a : Nat), (List.replicate m d).getD a d = d
  | 0, _ => by simp
  | _ + 1, 0 => rfl
  | m + 1, a + 1 => getD_replicate d m a

theorem foldl_max_init_le : ∀ (l : List Nat) (a : Nat), a ≤ l.foldl Nat.max a
  | [], _ => Nat.le_refl _
  | x :: l, a => Nat.le_trans (Nat.le_max_left a x) (foldl_max_init_le l (Nat.max a x))

theorem le_foldl_max : ∀ (l : List Nat) (a x : Nat), x ∈ l → x ≤ l.foldl Nat.max a
  | [], _, _, h => absurd h (by simp)
  | y :: l, a, x, h => by
    rcases List.mem_cons.mp h with h | h
    · subst h
      exact Nat.le_trans (Nat.le_max_right a x) (foldl_max_init_le l (Nat.max a x))
    · exact le_foldl_max l (Nat.max a y) x h

theorem foldl_max_all_zero : ∀ (l : List Nat), (∀ x ∈ l, x = 0) → ∀ a, l.foldl Nat.max a = a
  | [], _, _ => rfl
  | x :: l, h, a => by
    have hx : x = 0 := h x (List.mem_cons_self x l)
    have hl := foldl_max_all_zero l (fun y hy => h y (List.mem_cons_of_mem x hy))
    subst hx
    simpa [Nat.max_eq_left (Nat.zero_le a)] using hl (Nat.max a 0)

/-! ### Lemmas about the scan specification functions -/

theorem pairFlat_getD_fst : ∀ (bs : List (Nat × Nat)) (j : Nat), j < bs.length →
    (bs.flatMap fun p => [p.1, p.2]).getD (2 * j) 0 = (bs.getD j (0, 0)).1
  | _ :: _, 0, _ => rfl
  | q :: rest, j + 1, h => by
    have h2 : 2 * (j + 1) = 2 * j + 1 + 1 := by omega
    simp only [List.flatMap_cons, List.cons_append, List.nil_append, h2,
      List.getD_cons_succ]
    exact pairFlat_getD_fst rest j (by simpa using h)

theorem pairFlat_getD_snd : ∀ (bs : List (Nat × Nat)) (j : Nat), j < bs.length →
    (bs.flatMap fun p => [p.1, p.2]).getD (2 * j + 1) 0 = (bs.getD j (0, 0)).2
  | _ :: _, 0, _ => rfl
  | q :: rest, j + 1, h => by
    have h2 : 2 * (j + 1) + 1 = 2 * j + 1 + 1 + 1 := by omega
    simp only [List.flatMap_cons, List.cons_append, List.nil_append, h2,
      List.getD_cons_succ]
    exact pairFlat_getD_snd rest j (by simpa using h)

theorem revbSpec_length : ∀ (k : Nat) (bs : List (Nat × Nat)),
    (revbSpec k bs).length = 2 * bs.length
  | _, [] => rfl
  | k, _ :: rest => by
    simp only [revbSpec, List.length_cons, revbSpec_length (k + 1) rest]
    omega

theorem revbSpec_append : ∀ (xs : List (Nat × Nat)) (p : Nat × Nat) (k : Nat),
    revbSpec k (xs ++ [p]) =
      revbSpec k xs ++ [2 * (k + xs.length) + 2, 2 * (k + xs.length) + 1]
  | [], p, k => by simp [revbSpec]
  | q :: rest, p, k => by
    have h : k + 1 + rest.length = k + (rest.length + 1) := by omega
    simp only [List.cons_append, revbSpec, List.append_eq,
      revbSpec_append rest p (k + 1), h, List.length_cons]

theorem revbSpec_getD_fst : ∀ (bs : List (Nat × Nat)) (k j : Nat), j < bs.length →
    (revbSpec k bs).getD (2 * j) 0 = 2 * (k + j) + 2
  | _ :: _, k, 0, _ => by simp [revbSpec]
  | _ :: rest, k, j + 1, h => by
    have h2 : 2 * (j + 1) = 2 * j + 1 + 1 := by omega
    simp only [revbSpec, h2, List.getD_cons_succ]
    rw [revbSpec_getD_fst rest (k + 1) j (by simpa using h)]
    omega

theorem revbSpec_getD_snd : ∀ (bs : List (Nat × Nat)) (k j : Nat), j < bs.length →
    (revbSpec k bs).getD (2 * j + 1) 0 = 2 * (k + j) + 1
  | _ :: _, k, 0, _ => by simp [revbSpec]
  | _ :: rest, k, j + 1, h => by
    have h2 : 2 * (j + 1) + 1 = 2 * j + 1 + 1 + 1 := by omega
    simp only [revbSpec, h2, List.getD_cons_succ]
    rw [revbSpec_getD_snd rest (k + 1) j (by simpa using h)]
    omega

theorem revbSpec_pos : ∀ (k : Nat) (bs : List (Nat × Nat)) (x : Nat),
    x ∈ revbSpec k bs → 1 ≤ x
  | _, [], _, h => absurd h (by simp [revbSpec])
  | k, _ :: rest, x, h => by
    simp only [revbSpec, List.mem_cons] at h
    rcases h with h | h | h
    · omega
    · omega
    · exact revbSpec_pos (k + 1) rest x h

theorem rowSpecAux_append : ∀ (xs : List (Nat × Nat)) (p : Nat × Nat) (a k : Nat),
    rowSpecAux a k (xs ++ [p]) = rowSpecAux a k xs ++
      (if p.2 = a then [2 * (k + xs.length) + 1]
        else if p.1 = a then [2 * (k + xs.length) + 2] else [])
  | [], p, a, k => by simp [rowSpecAux]
  | q :: rest, p, a, k => by
    have h : k + 1 + rest.length = k + (rest.length + 1) := by omega
    simp only [List.cons_append, rowSpecAux, List.append_eq,
      rowSpecAux_append rest p a (k + 1), h, List.length_cons, List.append_assoc]

theorem rowSpecAux_mem_lb : ∀ (bs : List (Nat × Nat)) (a k x : Nat),
    x ∈ rowSpecAux a k bs → 2 * k + 1 ≤ x
  | [], _, _, _, h => absurd h (by simp [rowSpecAux])
  | p :: rest, a, k, x, h => by
    simp only [rowSpecAux, List.mem_append] at h
    rcases h with h | h
    · split at h
      · simp only [List.mem_singleton] at h
        omega
      · split at h
        · simp only [List.mem_singleton] at h
          omega
        · exact absurd h (by simp)
    · have := rowSpecAux_mem_lb rest a (k + 1) x h
      omega

theorem rowSpecAux_mem_ub : ∀ (bs : List (Nat × Nat)) (a k x : Nat),
    x ∈ rowSpecAux a k bs → x ≤ 2 * (k + bs.length)
  | [], _, _, _, h => absurd h (by simp [rowSpecAux])
  | p :: rest, a, k, x, h => by
    simp only [rowSpecAux, List.mem_append] at h
    rcases h with h | h
    · have hx : x = 2 * k + 1 ∨ x = 2 * k + 2 := by
        split at h
        · simp only [List.mem_singleton] at h
          exact Or.inl h
        · split at h
          · simp only [List.mem_singleton] at h
            exact Or.inr h
          · exact absurd h (by simp)
      simp only [List.length_cons]
      omega
    · have := rowSpecAux_mem_ub rest a (k + 1) x h
      simp only [List.length_cons]
      omega

theorem rowSpecAux_pairwise : ∀ (bs : List (Nat × Nat)) (a k : Nat),
    List.Pairwise (fun x y => x < y) (rowSpecAux a k bs)
  | [], _, _ => List.Pairwise.nil
  | p :: rest, a, k => by
    simp only [rowSpecAux]
    refine List.pairwise_append.mpr ⟨?_, rowSpecAux_pairwise rest a (k + 1), ?_⟩
    · split
      · simp
      · split
        · simp
        · simp
    · intro x hx y hy
      have hy2 := rowSpecAux_mem_lb rest a (k + 1) y hy
      have hx2 : x ≤ 2 * k + 2 := by
        split at hx
        · simp only [List.mem_singleton] at hx
          omega
        · split at hx
          · simp only [List.mem_singleton] at hx
            omega
          · exact absurd hx (by simp)
      omega

theorem rowSpecAux_count_fst : ∀ (bs : List (Nat × Nat)) (a k j : Nat), j < bs.length →
    (rowSpecAux a k bs).count (2 * (k + j) + 1) = if (bs.getD j (0, 0)).2 = a then 1 else 0
  | [], _, _, j, h => absurd h (by simp)
  | p :: rest, a, k, 0, _ => by
    simp only [rowSpecAux, List.count_append, Nat.add_zero, List.getD_cons_zero]
    have htail : List.count (2 * k + 1) (rowSpecAux a (k + 1) rest) = 0 := by
      rw [List.count_eq_zero]
      intro hmem
      have := rowSpecAux_mem_lb rest a (k + 1) _ hmem
      omega
    rw [htail, Nat.add_zero]
    split
    · simp
    · split
      · rw [List.count_singleton]
        simp only [beq_iff_eq]
        split
        · omega
        · rfl
      · simp
  | p :: rest, a, k, j + 1, h => by
    simp only [rowSpecAux, List.count_append, List.getD_cons_succ]
    have hhead : List.count (2 * (k + (j + 1)) + 1)
        (if p.2 = a then [2 * k + 1] else if p.1 = a then [2 * k + 2] else []) = 0 := by
      rw [List.count_eq_zero]
      intro hmem
      split at hmem
      · simp only [List.mem_singleton] at hmem
        omega
      · split at hmem
        · simp only [List.mem_singleton] at hmem
          omega
        · exact absurd hmem (by simp)
    rw [hhead, Nat.zero_add]
    have e : 2 * (k + (j + 1)) + 1 = 2 * ((k + 1) + j) + 1 := by omega
    rw [e]
    exact rowSpecAux_count_fst rest a (k + 1) j (by simpa using h)

theorem rowSpecAux_count_snd : ∀ (bs : List (Nat × Nat)) (a k j : Nat), j < bs.length →
    (rowSpecAux a k bs).count (2 * (k + j) + 2) =
      if (bs.getD j (0, 0)).2 ≠ a ∧ (bs.getD j (0, 0)).1 = a then 1 else 0
  | [], _, _, j, h => absurd h (by simp)
  | p :: rest, a, k, 0, _ => by
    simp only [rowSpecAux, List.count_append, Nat.add_zero, List.getD_cons_zero]
    have htail : List.count (2 * k + 2) (rowSpecAux a (k + 1) rest) = 0 := by
      rw [List.count_eq_zero]
      intro hmem
      have := rowSpecAux_mem_lb rest a (k + 1) _ hmem
      omega
    rw [htail, Nat.add_zero]
    split
    · have hcond : ¬(p.2 ≠ a ∧ p.1 = a) := by tauto
      rw [List.count_singleton]
      simp only [beq_iff_eq]
      split
      · omega
      · simp [hcond]
    · split
      · have hcond : p.2 ≠ a ∧ p.1 = a := by constructor <;> assumption
        rw [List.count_singleton]
        simp only [beq_iff_eq]
        simp [hcond]
      · have hcond : ¬(p.2 ≠ a ∧ p.1 = a) := by tauto
        simp [hcond]
  | p :: rest, a, k, j + 1, h => by
    simp only [rowSpecAux, List.count_append, List.getD_cons_succ]
    have hhead : List.count (2 * (k + (j + 1)) + 2)
        (if p.2 = a then [2 * k + 1] else if p.1 = a then [2 * k + 2] else []) = 0 := by
      rw [List.count_eq_zero]
      intro hmem
      split at hmem
      · simp only [List.mem_singleton] at hmem
        omega
      · split at hmem
        · simp only [List.mem_singleton] at hmem
          omega
        · exact absurd hmem (by simp)
    rw [hhead, Nat.zero_add]
    have e : 2 * (k + (j + 1)) + 2 = 2 * ((k + 1) + j) + 2 := by omega
    rw [e]
    exact rowSpecAux_count_snd rest a (k + 1) j (by simpa using h)

theorem rowSpecAux_all_away : ∀ (bs : List (Nat × Nat)) (a k : Nat),
    (∀ p ∈ bs, p.1 ≠ a ∧ p.2 ≠ a) → rowSpecAux a k bs = []
  | [], _, _, _ => rfl
  | p :: rest, a, k, h => by
    have hp := h p (List.mem_cons_self p rest)
    have hr := rowSpecAux_all_away rest a (k + 1)
      (fun q hq => h q (List.mem_cons_of_mem p hq))
    simp [rowSpecAux, hp.1, hp.2, hr]

/-! ### Characterization of the Phase 1 discovery fold -/

theorem foldl_processPair_char (mol : RDMol) (fa : List (List Rat)) (cf n : Nat) :
    ∀ l : List (Nat × Nat), (∀ p ∈ l, 1 ≤ p.1 ∧ p.1 < p.2 ∧ p.2 ≤ n) →
      (l.foldl (processPair mol fa) (initState cf n)).num_bonds =
          2 * (l.filter (bondedOn mol)).length ∧
        (l.foldl (processPair mol fa) (initState cf n)).f_ini_atoms_bonds_zero_padded =
          List.replicate cf 0 :: (l.filter (bondedOn mol)).flatMap (concatRows mol fa) ∧
        (l.foldl (processPair mol fa) (initState cf n)).bond_to_ini_atom =
          0 :: (l.filter (bondedOn mol)).flatMap (fun p => [p.1, p.2]) ∧
        (l.foldl (processPair mol fa) (initState cf n)).b2revb =
          0 :: revbSpec 0 (l.filter (bondedOn mol)) ∧
        (l.foldl (processPair mol fa) (initState cf n)).atom_to_incoming_bonds.length =
          n + 1 ∧
        ∀ a : Nat,
          (l.foldl (processPair mol fa) (initState cf n)).atom_to_incoming_bonds.getD a [] =
            rowSpecAux a 0 (l.filter (bondedOn mol)) := by
  intro l
  induction l using List.reverseRecOn with
  | nil =>
    intro _
    refine ⟨rfl, rfl, rfl, rfl, by simp [initState], ?_⟩
    intro a
    simp only [List.foldl_nil, initState, List.filter_nil]
    rw [getD_replicate]
    rfl
  | append_singleton xs p ih =>
    intro hl
    have hp := hl p (by simp)
    have hxs : ∀ q ∈ xs, 1 ≤ q.1 ∧ q.1 < q.2 ∧ q.2 ≤ n := fun q hq => hl q (by simp [hq])
    obtain ⟨h1, h2, h3, h4, h5, h6⟩ := ih hxs
    rw [List.foldl_append, List.foldl_cons, List.foldl_nil, List.filter_append]
    cases hbond : mol.GetBondBetweenAtoms (p.1 - 1) (p.2 - 1) with
    | none =>
      have hb : (xs.foldl (processPair mol fa) (initState cf n)).num_bonds =
          (processPair mol fa (xs.foldl (processPair mol fa) (initState cf n)) p).num_bonds := by
        simp [processPair, hbond]
      have hfilter : List.filter (bondedOn mol) [p] = [] := by
        simp [List.filter, bondedOn, hbond]
      rw [hfilter, List.append_nil]
      have hpp : processPair mol fa (xs.foldl (processPair mol fa) (initState cf n)) p =
          xs.foldl (processPair mol fa) (initState cf n) := by
        simp [processPair, hbond]
      rw [hpp]
      exact ⟨h1, h2, h3, h4, h5, h6⟩
    | some bond =>
      have hfilter : List.filter (bondedOn mol) [p] = [p] := by
        simp [List.filter, bondedOn, hbond]
      rw [hfilter]
      simp only [processPair, hbond]
      refine ⟨?_, ?_, ?_, ?_, ?_, ?_⟩
      · rw [h1]
        simp only [List.length_append, List.length_cons, List.length_nil]
        omega
      · rw [h2, List.flatMap_append]
        have hrows : concatRows mol fa p =
            [fa.getD p.1 [] ++ bond_features (some bond),
              fa.getD p.2 [] ++ bond_features (some bond)] := by
          simp [concatRows, hbond]
        simp [hrows]
      · rw [h3, List.flatMap_append]
        simp
      · rw [h4, h1, revbSpec_append]
        simp
      · simp only [List.length_set]
        exact h5
      · intro a
        rw [rowSpecAux_append]
        have hne21 : p.2 ≠ p.1 := by omega
        have hne12 : p.1 ≠ p.2 := by omega
        have hlen1 :
            ((xs.foldl (processPair mol fa) (initState cf n)).atom_to_incoming_bonds.set p.2
              ((xs.foldl (processPair mol fa) (initState cf n)).atom_to_incoming_bonds.getD
                p.2 [] ++
                [(xs.foldl (processPair mol fa) (initState cf n)).num_bonds + 1])).length =
              n + 1 := by
          rw [List.length_set]
          exact h5
        by_cases hap1 : a = p.1
        · subst hap1
          rw [getD_set_self _ _ _ _ (by rw [hlen1]; omega)]
          rw [getD_set_ne _ _ _ _ _ hne21, h6, h1]
          have hc1 : ¬(p.2 = p.1) := by omega
          simp [hc1]
        · by_cases hap2 : a = p.2
          · subst hap2
            rw [getD_set_ne _ _ _ _ _ hne12]
            rw [getD_set_self _ _ _ _ (by rw [h5]; omega), h6, h1]
            simp
          · rw [getD_set_ne _ _ _ _ _ (fun h => hap1 h.symm),
              getD_set_ne _ _ _ _ _ (fun h => hap2 h.symm), h6]
            have hc1 : ¬(p.2 = a) := fun h => hap2 h.symm
            have hc2 : ¬(p.1 = a) := fun h => hap1 h.symm
            simp [hc1, hc2]

/-! ### The pair scan order -/

theorem mem_pairList (n : Nat) (p : Nat × Nat) :
    p ∈ pairList n ↔ 1 ≤ p.1 ∧ p.1 < p.2 ∧ p.2 ≤ n := by
  cases p with
  | mk x y =>
    simp only [pairList, List.mem_flatMap, List.mem_map, List.mem_range'_1, Prod.mk.injEq]
    constructor
    · rintro ⟨a1, ⟨ha1, ha2⟩, a2, ⟨hb1, hb2⟩, he1, he2⟩
      subst he1
      subst he2
      omega
    · rintro ⟨h1, h2, h3⟩
      exact ⟨x, ⟨h1, by omega⟩, y, ⟨by omega, by omega⟩, rfl, rfl⟩

theorem pairList_pairwise (n : Nat) : List.Pairwise pairLt (pairList n) := by
  rw [pairList, List.flatMap_def, List.pairwise_flatten]
  constructor
  · intro l hl
    simp only [List.mem_map] at hl
    obtain ⟨a1, _, rfl⟩ := hl
    rw [List.pairwise_map]
    exact (List.pairwise_lt_range' (a1 + 1) (n - a1)).imp fun h => Or.inr ⟨rfl, h⟩
  · rw [List.pairwise_map]
    refine (List.pairwise_lt_range' 1 n).imp ?_
    intro a b hab x hx y hy
    simp only [List.mem_map] at hx hy
    obtain ⟨xa, _, rfl⟩ := hx
    obtain ⟨ya, _, rfl⟩ := hy
    exact Or.inl hab

theorem discoveredPairs_pairwise (mol : RDMol) (n : Nat) :
    List.Pairwise pairLt (discoveredPairs mol n) :=
  List.Pairwise.sublist (List.filter_sublist _) (pairList_pairwise n)

theorem mem_discoveredPairs (mol : RDMol) (n : Nat) (p : Nat × Nat) :
    p ∈ discoveredPairs mol n ↔
      (1 ≤ p.1 ∧ p.1 < p.2 ∧ p.2 ≤ n) ∧ bondedOn mol p = true := by
  rw [discoveredPairs, List.mem_filter, mem_pairList]

/-! ### Shape of the state after Phase 1 -/

theorem phase1_char (mol : RDMol) (cf : Nat) (fa : List (List Rat)) :
    (phase1 mol cf fa).num_bonds =
        2 * (discoveredPairs mol (fa.length - 1)).length ∧
      (phase1 mol cf fa).f_ini_atoms_bonds_zero_padded =
        List.replicate cf 0 ::
          (discoveredPairs mol (fa.length - 1)).flatMap (concatRows mol fa) ∧
      (phase1 mol cf fa).bond_to_ini_atom =
        0 :: (discoveredPairs mol (fa.length - 1)).flatMap (fun p => [p.1, p.2]) ∧
      (phase1 mol cf fa).b2revb =
        0 :: revbSpec 0 (discoveredPairs mol (fa.length - 1)) ∧
      (phase1 mol cf fa).atom_to_incoming_bonds.length = fa.length - 1 + 1 ∧
      ∀ a : Nat,
        (phase1 mol cf fa).atom_to_incoming_bonds.getD a [] =
          rowSpecAux a 0 (discoveredPairs mol (fa.length - 1)) :=
  foldl_processPair_char mol fa cf (fa.length - 1) (pairList (fa.length - 1))
    (fun p hp => (mem_pairList _ p).mp hp)

theorem discoveredPairs_lt (mol : RDMol) (n : Nat) :
    ∀ p ∈ discoveredPairs mol n, 1 ≤ p.1 ∧ p.1 < p.2 ∧ p.2 ≤ n :=
  fun p hp => ((mem_discoveredPairs mol n p).mp hp).1

/-! ### The reverse-bond scrub -/

theorem zeroOut_length (row : List Nat) (r : Nat) : (zeroOut row r).length = row.length := by
  simp [zeroOut]

theorem mem_zeroOut_ne (row : List Nat) (r x : Nat) (hr : r ≠ 0)
    (hx : x ∈ zeroOut row r) : x ≠ r := by
  simp only [zeroOut, List.mem_map] at hx
  obtain ⟨y, _, he⟩ := hx
  subst he
  split
  · exact fun h => hr h.symm
  · assumption

theorem scrub_foldl_length : ∀ (bs : List Nat) (k : Nat) (m : List (List Nat)),
    ((List.enumFrom k bs).foldl (fun acc p => scrubStep acc p.1 p.2) m).length = m.length
  | [], _, _ => rfl
  | _ :: rest, k, m => by
    rw [List.enumFrom_cons, List.foldl_cons, scrub_foldl_length rest (k + 1) _]
    simp [scrubStep, List.length_set]

theorem scrub_foldl_lt : ∀ (bs : List Nat) (k : Nat) (m : List (List Nat)) (j : Nat), j < k →
    ((List.enumFrom k bs).foldl (fun acc p => scrubStep acc p.1 p.2) m).getD j [] =
      m.getD j []
  | [], _, _, _, _ => rfl
  | _ :: rest, k, m, j, hj => by
    rw [List.enumFrom_cons, List.foldl_cons, scrub_foldl_lt rest (k + 1) _ j (by omega)]
    exact getD_set_ne _ _ _ _ _ (by omega)

theorem scrub_foldl_getD : ∀ (bs : List Nat) (k : Nat) (m : List (List Nat)) (j : Nat),
    k ≤ j → j < m.length → j - k < bs.length →
    ((List.enumFrom k bs).foldl (fun acc p => scrubStep acc p.1 p.2) m).getD j [] =
      zeroOut (m.getD j []) (bs.getD (j - k) 0)
  | [], _, _, _, _, _, h => absurd h (by simp)
  | b :: rest, k, m, j, hkj, hjm, hjb => by
    rw [List.enumFrom_cons, List.foldl_cons]
    by_cases hjk : j = k
    · subst hjk
      rw [scrub_foldl_lt rest (j + 1) _ j (by omega), Nat.sub_self, List.getD_cons_zero]
      exact getD_set_self _ _ _ _ hjm
    · have hlen : j < (scrubStep m k b).length := by
        simpa [scrubStep, List.length_set] using hjm
      have hjb2 : j - (k + 1) < rest.length := by
        simp only [List.length_cons] at hjb
        omega
      rw [scrub_foldl_getD rest (k + 1) _ j (by omega) hlen hjb2]
      have e : j - k = (j - (k + 1)) + 1 := by omega
      rw [show (scrubStep m k b).getD j [] = m.getD j [] from
          getD_set_ne _ _ _ _ _ (by omega),
        e, List.getD_cons_succ]

theorem replace_rev_bonds_getD (m : List (List Nat)) (bs : List Nat) (j : Nat)
    (h1 : j < m.length) (h2 : j < bs.length) :
    (replace_rev_bonds m bs).getD j [] = zeroOut (m.getD j []) (bs.getD j 0) := by
  have he : bs.enum = List.enumFrom 0 bs := rfl
  have := scrub_foldl_getD bs 0 m j (Nat.zero_le j) h1 (by simpa using h2)
  simpa [replace_rev_bonds, he] using this

theorem replace_rev_bonds_length (m : List (List Nat)) (bs : List Nat) :
    (replace_rev_bonds m bs).length = m.length := by
  have he : bs.enum = List.enumFrom 0 bs := rfl
  have := scrub_foldl_length bs 0 m
  simpa [replace_rev_bonds, he] using this

/-! ### Component equations of the constructed mapper -/

theorem mkMapper_num_atoms (mol : RDMol) (cf : Nat) (fa : List (List Rat)) :
    (mkMapper mol cf fa).num_atoms = fa.length - 1 := rfl

theorem mkMapper_num_bonds (mol : RDMol) (cf : Nat) (fa : List (List Rat)) :
    (mkMapper mol cf fa).num_bonds = (phase1 mol cf fa).num_bonds := rfl

theorem mkMapper_f_ini (mol : RDMol) (cf : Nat) (fa : List (List Rat)) :
    (mkMapper mol cf fa).f_ini_atoms_bonds_zero_padded =
      (phase1 mol cf fa).f_ini_atoms_bonds_zero_padded := rfl

theorem mkMapper_a2ib (mol : RDMol) (cf : Nat) (fa : List (List Rat)) :
    (mkMapper mol cf fa).atom_to_incoming_bonds =
      modify_based_on_max_bonds (fa.length - 1)
        (phase1 mol cf fa).atom_to_incoming_bonds := rfl

theorem mkMapper_b2ia (mol : RDMol) (cf : Nat) (fa : List (List Rat)) :
    (mkMapper mol cf fa).bond_to_ini_atom = (phase1 mol cf fa).bond_to_ini_atom := rfl

theorem mkMapper_b2revb (mol : RDMol) (cf : Nat) (fa : List (List Rat)) :
    (mkMapper mol cf fa).b2revb = (phase1 mol cf fa).b2revb := rfl

theorem mkMapper_mapping (mol : RDMol) (cf : Nat) (fa : List (List Rat)) :
    (mkMapper mol cf fa).mapping =
      replace_rev_bonds
        (rawMapping
          (modify_based_on_max_bonds (fa.length - 1)
            (phase1 mol cf fa).atom_to_incoming_bonds)
          (phase1 mol cf fa).bond_to_ini_atom)
        (phase1 mol cf fa).b2revb := rfl

/-! ### Sizes and indexing facts -/

theorem pairFlat_length : ∀ (bs : List (Nat × Nat)),
    (bs.flatMap fun p => [p.1, p.2]).length = 2 * bs.length
  | [] => rfl
  | _ :: rest => by
    simp only [List.flatMap_cons, List.length_append, List.length_cons, List.length_nil,
      pairFlat_length rest]
    omega

theorem getD_range_map {α : Type} (f : Nat → α) (m a : Nat) (d : α) (h : a < m) :
    ((List.range m).map f).getD a d = f a := by
  rw [List.getD_eq_getElem _ _ (by simpa using h), List.getElem_map, List.getElem_range]

theorem getD_map_in {α β : Type} (f : α → β) (l : List α) (j : Nat) (d : β) (d0 : α)
    (h : j < l.length) : (l.map f).getD j d = f (l.getD j d0) := by
  rw [List.getD_eq_getElem _ _ (by simpa using h), List.getElem_map,
    List.getD_eq_getElem _ _ h]

theorem row_len_le_max (a2ib : List (List Nat)) (a : Nat) :
    (a2ib.getD a []).length ≤ max_num_bonds a2ib := by
  by_cases h : a < a2ib.length
  · have hmem : (a2ib.getD a []).length ∈ a2ib.map List.length := by
      rw [List.getD_eq_getElem _ _ h]
      exact List.mem_map.mpr ⟨_, List.getElem_mem h, rfl⟩
    exact Nat.le_trans (le_foldl_max _ 0 _ hmem) (Nat.le_max_right 1 _)
  · rw [List.getD_eq_default _ _ (by omega)]
    simp [max_num_bonds]

theorem modify_length (n : Nat) (a2ib : List (List Nat)) :
    (modify_based_on_max_bonds n a2ib).length = n + 1 := by
  simp [modify_based_on_max_bonds]

theorem modify_getD (n : Nat) (a2ib : List (List Nat)) (a : Nat) (h : a < n + 1) :
    (modify_based_on_max_bonds n a2ib).getD a [] =
      a2ib.getD a [] ++ List.replicate (max_num_bonds a2ib - (a2ib.getD a []).length) 0 := by
  rw [modify_based_on_max_bonds, getD_range_map _ _ _ _ h]

theorem modify_getD_length (n : Nat) (a2ib : List (List Nat)) (a : Nat) (h : a < n + 1) :
    ((modify_based_on_max_bonds n a2ib).getD a []).length = max_num_bonds a2ib := by
  rw [modify_getD n a2ib a h]
  have := row_len_le_max a2ib a
  simp only [List.length_append, List.length_replicate]
  omega

theorem phase1_b2ia_length (mol : RDMol) (cf : Nat) (fa : List (List Rat)) :
    (phase1 mol cf fa).bond_to_ini_atom.length =
      2 * (discoveredPairs mol (fa.length - 1)).length + 1 := by
  rw [(phase1_char mol cf fa).2.2.1]
  simp only [List.length_cons, pairFlat_length]

theorem phase1_b2revb_length (mol : RDMol) (cf : Nat) (fa : List (List Rat)) :
    (phase1 mol cf fa).b2revb.length =
      2 * (discoveredPairs mol (fa.length - 1)).length + 1 := by
  rw [(phase1_char mol cf fa).2.2.2.1]
  simp [revbSpec_length]

theorem phase1_b2ia_getD_le (mol : RDMol) (cf : Nat) (fa : List (List Rat)) (j : Nat) :
    (phase1 mol cf fa).bond_to_ini_atom.getD j 0 ≤ fa.length - 1 := by
  rw [(phase1_char mol cf fa).2.2.1]
  by_cases h : j < (0 :: (discoveredPairs mol (fa.length - 1)).flatMap fun p => [p.1, p.2]).length
  · rw [List.getD_eq_getElem _ _ h]
    have hmem := List.getElem_mem h
    rcases List.mem_cons.mp hmem with h0 | hflat
    · omega
    · rcases List.mem_flatMap.mp hflat with ⟨p, hp, hx⟩
      have hb := discoveredPairs_lt mol (fa.length - 1) p hp
      rcases List.mem_cons.mp hx with h1 | hx2
      · omega
      · rcases List.mem_singleton.mp (by simpa using hx2) with h2
        omega
  · rw [List.getD_eq_default _ _ (by omega)]
    omega

theorem phase1_b2revb_getD_pos (mol : RDMol) (cf : Nat) (fa : List (List Rat)) (i : Nat)
    (h1 : 1 ≤ i) (h2 : i ≤ 2 * (discoveredPairs mol (fa.length - 1)).length) :
    1 ≤ (phase1 mol cf fa).b2revb.getD i 0 := by
  rw [(phase1_char mol cf fa).2.2.2.1]
  obtain ⟨k, rfl⟩ : ∃ k, i = k + 1 := ⟨i - 1, by omega⟩
  rw [List.getD_cons_succ]
  have hk : k < (revbSpec 0 (discoveredPairs mol (fa.length - 1))).length := by
    rw [revbSpec_length]
    omega
  rw [List.getD_eq_getElem _ _ hk]
  exact revbSpec_pos _ _ _ (List.getElem_mem hk)

theorem map_sum_const {α : Type} (f : α → Nat) (c : Nat) :
    ∀ l : List α, (∀ a ∈ l, f a = c) → (l.map f).sum = c * l.length
  | [], _ => by simp
  | a :: l, h => by
    simp only [List.map_cons, List.sum_cons, List.length_cons,
      map_sum_const f c l (fun b hb => h b (List.mem_cons_of_mem a hb)),
      h a (List.mem_cons_self a l)]
    ring

/-! ### The claims -/

/-- C1: for every molecule and every directed bond id `i` in `[1, num_bonds]`,
after `_MapperDMPNN` construction completes, row `i` of `self.mapping` contains
no entry equal to `b2revb[i]`, the reverse id of bond `i`: every such entry has
been replaced with 0 by the reverse-bond scrub. -/
theorem C1_mapping_no_own_reverse (mol : RDMol) (cf : Nat) (fa : List (List Rat))
    (i x : Nat) (h1 : 1 ≤ i) (h2 : i ≤ (mkMapper mol cf fa).num_bonds)
    (hx : x ∈ (mkMapper mol cf fa).mapping.getD i []) :
    x ≠ (mkMapper mol cf fa).b2revb.getD i 0 := by
  have hnb : (mkMapper mol cf fa).num_bonds =
      2 * (discoveredPairs mol (fa.length - 1)).length := by
    rw [mkMapper_num_bonds]
    exact (phase1_char mol cf fa).1
  rw [hnb] at h2
  rw [mkMapper_mapping] at hx
  rw [mkMapper_b2revb]
  have hlenraw :
      (rawMapping
        (modify_based_on_max_bonds (fa.length - 1)
          (phase1 mol cf fa).atom_to_incoming_bonds)
        (phase1 mol cf fa).bond_to_ini_atom).length =
      2 * (discoveredPairs mol (fa.length - 1)).length + 1 := by
    rw [rawMapping, List.length_map]
    exact phase1_b2ia_length mol cf fa
  have hlenrev := phase1_b2revb_length mol cf fa
  rw [replace_rev_bonds_getD _ _ i (by rw [hlenraw]; omega) (by rw [hlenrev]; omega)] at hx
  have hpos := phase1_b2revb_getD_pos mol cf fa i h1 (by omega)
  exact mem_zeroOut_ne _ _ _ (by omega) hx

/-- Witness for C1: the 3-atom chain, directed bond id 2, whose scrubbed
mapping row still contains the entry 4, which differs from its own reverse
id 1. -/
theorem C1_witness :
    1 ≤ 2 ∧ 2 ≤ (mkMapper molChain 2 faChain).num_bonds ∧
      4 ∈ (mkMapper molChain 2 faChain).mapping.getD 2 [] ∧
      4 ≠ (mkMapper molChain 2 faChain).b2revb.getD 2 0 :=
  ⟨by decide, by decide, by decide,
    C1_mapping_no_own_reverse molChain 2 faChain 2 4 (by decide) (by decide) (by decide)⟩

/-- C2: for every molecule with `B` discovered (undirected) bonds, after
`_MapperDMPNN` construction `num_bonds` equals `2 * B` and the concatenated
feature table has exactly `2 * B + 1` rows: the all-zero padding row 0 plus
two rows appended per discovered bond. -/
theorem C2_concat_table_row_count (mol : RDMol) (cf : Nat) (fa : List (List Rat)) :
    (mkMapper mol cf fa).num_bonds = 2 * (discoveredPairs mol (fa.length - 1)).length ∧
      (mkMapper mol cf fa).f_ini_atoms_bonds_zero_padded.length =
        2 * (discoveredPairs mol (fa.length - 1)).length + 1 ∧
      (mkMapper mol cf fa).f_ini_atoms_bonds_zero_padded.getD 0 [] =
        List.replicate cf 0 := by
  obtain ⟨c1, c2, -, -, -, -⟩ := phase1_char mol cf fa
  have hrows : ∀ p ∈ discoveredPairs mol (fa.length - 1),
      ((List.length ∘ concatRows mol fa) p) = 2 := by
    intro p hp
    have hb := ((mem_discoveredPairs mol _ p).mp hp).2
    simp only [bondedOn] at hb
    cases hbond : mol.GetBondBetweenAtoms (p.1 - 1) (p.2 - 1) with
    | none =>
      rw [hbond] at hb
      simp at hb
    | some b => simp [concatRows, hbond]
  refine ⟨by rw [mkMapper_num_bonds, c1], ?_, ?_⟩
  · rw [mkMapper_f_ini, c2]
    simp only [List.length_cons, List.length_flatMap]
    rw [map_sum_const _ 2 _ hrows]
  · rw [mkMapper_f_ini, c2]
    rfl

/-- C3: directed-bond ids are assigned strictly in discovery order over atom
pairs visited in increasing lexicographic order of 1-indexed `(a1, a2)` with
`a1 < a2`; the `j`-th discovered bond (0-indexed) gets the consecutive ids
`k = 2j + 1` and `k + 1`, with `bond_to_ini_atom[k] = a1` (direction a1→a2),
`bond_to_ini_atom[k + 1] = a2` (direction a2→a1), and the reverse map is the
pairwise involution `b2revb[k] = k + 1`, `b2revb[k + 1] = k`, so odd ids run
a1→a2 and even ids a2→a1. -/
theorem C3_discovery_order (mol : RDMol) (cf : Nat) (fa : List (List Rat))
    (p : Nat × Nat) (j : Nat)
    (hj : j < (discoveredPairs mol (fa.length - 1)).length) :
    List.Pairwise pairLt (discoveredPairs mol (fa.length - 1)) ∧
      (p ∈ discoveredPairs mol (fa.length - 1) ↔
        (1 ≤ p.1 ∧ p.1 < p.2 ∧ p.2 ≤ fa.length - 1) ∧ bondedOn mol p = true) ∧
      (phase1 mol cf fa).bond_to_ini_atom.getD (2 * j + 1) 0 =
        ((discoveredPairs mol (fa.length - 1)).getD j (0, 0)).1 ∧
      (phase1 mol cf fa).bond_to_ini_atom.getD (2 * j + 2) 0 =
        ((discoveredPairs mol (fa.length - 1)).getD j (0, 0)).2 ∧
      (phase1 mol cf fa).b2revb.getD (2 * j + 1) 0 = 2 * j + 2 ∧
      (phase1 mol cf fa).b2revb.getD (2 * j + 2) 0 = 2 * j + 1 := by
  obtain ⟨-, -, c3, c4, -, -⟩ := phase1_char mol cf fa
  refine ⟨discoveredPairs_pairwise mol _, mem_discoveredPairs mol _ p, ?_, ?_, ?_, ?_⟩
  · rw [c3, List.getD_cons_succ]
    exact pairFlat_getD_fst _ j hj
  · rw [c3, show 2 * j + 2 = 2 * j + 1 + 1 from by omega, List.getD_cons_succ]
    exact pairFlat_getD_snd _ j hj
  · rw [c4, List.getD_cons_succ]
    have := revbSpec_getD_fst _ 0 j hj
    simpa using this
  · rw [c4, show 2 * j + 2 = 2 * j + 1 + 1 from by omega, List.getD_cons_succ]
    have := revbSpec_getD_snd _ 0 j hj
    simpa using this

/-- Witness for C3: the 3-atom chain; its first discovered bond is (1, 2) with
ids 1 and 2 and mutually inverse reverse ids. -/
theorem C3_witness :
    0 < (discoveredPairs molChain (faChain.length - 1)).length ∧
      (List.Pairwise pairLt (discoveredPairs molChain (faChain.length - 1)) ∧
        ((1, 2) ∈ discoveredPairs molChain (faChain.length - 1) ↔
          (1 ≤ ((1, 2) : Nat × Nat).1 ∧ ((1, 2) : Nat × Nat).1 < ((1, 2) : Nat × Nat).2 ∧
              ((1, 2) : Nat × Nat).2 ≤ faChain.length - 1) ∧
            bondedOn molChain (1, 2) = true) ∧
        (phase1 molChain 2 faChain).bond_to_ini_atom.getD (2 * 0 + 1) 0 =
          ((discoveredPairs molChain (faChain.length - 1)).getD 0 (0, 0)).1 ∧
        (phase1 molChain 2 faChain).bond_to_ini_atom.getD (2 * 0 + 2) 0 =
          ((discoveredPairs molChain (faChain.length - 1)).getD 0 (0, 0)).2 ∧
        (phase1 molChain 2 faChain).b2revb.getD (2 * 0 + 1) 0 = 2 * 0 + 2 ∧
        (phase1 molChain 2 faChain).b2revb.getD (2 * 0 + 2) 0 = 2 * 0 + 1) :=
  ⟨by decide, C3_discovery_order molChain 2 faChain (1, 2) 0 (by decide)⟩

/-- C4: after the padding phase, every row of `atom_to_incoming_bonds`
(indices 0 through `num_atoms`, including padding atom 0) has the same length
`M = max(1, maximum in-degree over all atoms)`, obtained by right-padding with
zeros, and every row of the final `self.mapping` has this same width `M`. -/
theorem C4_uniform_row_width (mol : RDMol) (cf : Nat) (fa : List (List Rat))
    (row : List Nat) :
    (mkMapper mol cf fa).atom_to_incoming_bonds.length =
        (mkMapper mol cf fa).num_atoms + 1 ∧
      (row ∈ (mkMapper mol cf fa).atom_to_incoming_bonds →
        row.length = max_num_bonds (phase1 mol cf fa).atom_to_incoming_bonds) ∧
      (row ∈ (mkMapper mol cf fa).mapping →
        row.length = max_num_bonds (phase1 mol cf fa).atom_to_incoming_bonds) := by
  refine ⟨by rw [mkMapper_a2ib, mkMapper_num_atoms, modify_length], ?_, ?_⟩
  · intro hrow
    rw [mkMapper_a2ib, modify_based_on_max_bonds] at hrow
    rcases List.mem_map.mp hrow with ⟨a, -, rfl⟩
    have := row_len_le_max (phase1 mol cf fa).atom_to_incoming_bonds a
    simp only [List.length_append, List.length_replicate]
    omega
  · intro hrow
    rw [mkMapper_mapping] at hrow
    rcases List.mem_iff_getElem.mp hrow with ⟨j, hjlen, hroweq⟩
    have hlenraw :
        (rawMapping
          (modify_based_on_max_bonds (fa.length - 1)
            (phase1 mol cf fa).atom_to_incoming_bonds)
          (phase1 mol cf fa).bond_to_ini_atom).length =
        2 * (discoveredPairs mol (fa.length - 1)).length + 1 := by
      rw [rawMapping, List.length_map]
      exact phase1_b2ia_length mol cf fa
    have hjraw : j <
        (rawMapping
          (modify_based_on_max_bonds (fa.length - 1)
            (phase1 mol cf fa).atom_to_incoming_bonds)
          (phase1 mol cf fa).bond_to_ini_atom).length := by
      rw [← replace_rev_bonds_length _ (phase1 mol cf fa).b2revb]
      exact hjlen
    have hjrev : j < (phase1 mol cf fa).b2revb.length := by
      rw [phase1_b2revb_length]
      omega
    have hgd : (replace_rev_bonds
        (rawMapping
          (modify_based_on_max_bonds (fa.length - 1)
            (phase1 mol cf fa).atom_to_incoming_bonds)
          (phase1 mol cf fa).bond_to_ini_atom)
        (phase1 mol cf fa).b2revb).getD j [] = row := by
      rw [List.getD_eq_getElem _ _ hjlen, hroweq]
    rw [replace_rev_bonds_getD _ _ j hjraw hjrev] at hgd
    have hjb : j < (phase1 mol cf fa).bond_to_ini_atom.length := by
      rw [phase1_b2ia_length]
      omega
    rw [rawMapping, getD_map_in _ _ j _ 0 hjb] at hgd
    have hle := phase1_b2ia_getD_le mol cf fa j
    rw [← hgd, zeroOut_length,
      modify_getD_length (fa.length - 1) _ _ (by omega)]

/-- Witness for C4: in the 3-atom chain the padded incoming-bond table
contains the row [2, 0], whose width is the uniform padded width. -/
theorem C4_witness :
    [2, 0] ∈ (mkMapper molChain 2 faChain).atom_to_incoming_bonds ∧
      ([2, 0] : List Nat).length =
        max_num_bonds (phase1 molChain 2 faChain).atom_to_incoming_bonds :=
  ⟨by decide, (C4_uniform_row_width molChain 2 faChain [2, 0]).2.1 (by decide)⟩

/-- C5: a molecule with zero bonds (any atom count, including zero atoms)
yields `num_bonds = 0`, a concatenated feature table consisting of exactly the
one all-zero padding row of width `concat_fdim`, and a mapping of all-zero
rows of width 1 — no failure occurs. -/
theorem C5_no_bonds (mol : RDMol) (cf : Nat) (fa : List (List Rat))
    (hb : ∀ i j, mol.GetBondBetweenAtoms i j = none) :
    (mkMapper mol cf fa).num_bonds = 0 ∧
      (mkMapper mol cf fa).f_ini_atoms_bonds_zero_padded = [List.replicate cf 0] ∧
      (mkMapper mol cf fa).mapping = [[0]] := by
  have hdp : discoveredPairs mol (fa.length - 1) = [] := by
    rw [discoveredPairs, List.filter_eq_nil_iff]
    intro p _
    simp [bondedOn, hb]
  obtain ⟨c1, c2, c3, c4, c5, c6⟩ := phase1_char mol cf fa
  rw [hdp] at c1 c2 c3 c4 c6
  refine ⟨?_, ?_, ?_⟩
  · rw [mkMapper_num_bonds, c1]
    rfl
  · rw [mkMapper_f_ini, c2]
    rfl
  · have hM : max_num_bonds (phase1 mol cf fa).atom_to_incoming_bonds = 1 := by
      rw [max_num_bonds]
      have hz : ∀ x ∈ (phase1 mol cf fa).atom_to_incoming_bonds.map List.length,
          x = 0 := by
        intro x hx
        rcases List.mem_map.mp hx with ⟨r, hr, rfl⟩
        rcases List.mem_iff_getElem.mp hr with ⟨i, hi, rfl⟩
        rw [← List.getD_eq_getElem _ ([] : List Nat) hi, c6 i]
        rfl
      rw [foldl_max_all_zero _ hz 0]
      rfl
    have hpad0 :
        (modify_based_on_max_bonds (fa.length - 1)
          (phase1 mol cf fa).atom_to_incoming_bonds).getD 0 [] = [0] := by
      rw [modify_getD _ _ 0 (by omega), c6 0, hM]
      rfl
    rw [mkMapper_mapping, c3, c4]
    simp only [List.flatMap_nil]
    rw [show revbSpec 0 ([] : List (Nat × Nat)) = [] from rfl]
    have hraw :
        rawMapping
          (modify_based_on_max_bonds (fa.length - 1)
            (phase1 mol cf fa).atom_to_incoming_bonds) [0] = [[0]] := by
      rw [rawMapping, List.map_cons, List.map_nil, hpad0]
    rw [hraw]
    rfl

/-- Witness for C5: the bond-free molecule with zero atoms. -/
theorem C5_witness :
    (mkMapper molNone 3 [[0]]).num_bonds = 0 ∧
      (mkMapper molNone 3 [[0]]).f_ini_atoms_bonds_zero_padded =
        [List.replicate 3 0] ∧
      (mkMapper molNone 3 [[0]]).mapping = [[0]] :=
  C5_no_bonds molNone 3 [[0]] (fun _ _ => rfl)

/-- C9: after Phase 1 discovery (before padding), every directed bond id `b`
in `[1, num_bonds]` appears exactly once across all rows of
`atom_to_incoming_bonds`, namely in the row of the atom the bond points into
(the initial atom of its reverse bond); the padding atom's row 0 is empty;
each row has no duplicates and every entry of a row is a directed bond id in
`[1, num_bonds]`. -/
theorem C9_incoming_bonds_unique (mol : RDMol) (cf : Nat) (fa : List (List Rat))
    (b j x : Nat)
    (hb1 : 1 ≤ b) (hb2 : b ≤ (phase1 mol cf fa).num_bonds)
    (hj : j < (phase1 mol cf fa).atom_to_incoming_bonds.length) :
    (phase1 mol cf fa).atom_to_incoming_bonds.getD 0 [] = [] ∧
      ((phase1 mol cf fa).atom_to_incoming_bonds.getD j []).count b =
        (if j = bondTarget (phase1 mol cf fa) b then 1 else 0) ∧
      ((phase1 mol cf fa).atom_to_incoming_bonds.getD j []).Nodup ∧
      (x ∈ (phase1 mol cf fa).atom_to_incoming_bonds.getD j [] →
        1 ≤ x ∧ x ≤ (phase1 mol cf fa).num_bonds) := by
  obtain ⟨c1, -, c3, c4, -, c6⟩ := phase1_char mol cf fa
  have hlt := discoveredPairs_lt mol (fa.length - 1)
  refine ⟨?_, ?_, ?_, ?_⟩
  · rw [c6 0]
    exact rowSpecAux_all_away _ 0 0 (fun p hp => by have := hlt p hp; omega)
  · rw [c6 j]
    rw [c1] at hb2
    rcases Nat.mod_two_eq_zero_or_one b with hpar | hpar
    · obtain ⟨m, hm, hmlt⟩ :
          ∃ m, b = 2 * m + 2 ∧ m < (discoveredPairs mol (fa.length - 1)).length :=
        ⟨b / 2 - 1, by omega, by omega⟩
      subst hm
      have hmem : (discoveredPairs mol (fa.length - 1)).getD m (0, 0) ∈
          discoveredPairs mol (fa.length - 1) := by
        rw [List.getD_eq_getElem _ _ hmlt]
        exact List.getElem_mem hmlt
      have hpair := hlt _ hmem
      have htar : bondTarget (phase1 mol cf fa) (2 * m + 2) =
          ((discoveredPairs mol (fa.length - 1)).getD m (0, 0)).1 := by
        simp only [bondTarget]
        rw [c4, c3]
        rw [show 2 * m + 2 = 2 * m + 1 + 1 from by omega, List.getD_cons_succ]
        rw [show (revbSpec 0 (discoveredPairs mol (fa.length - 1))).getD (2 * m + 1) 0 =
            2 * m + 1 from by simpa using revbSpec_getD_snd _ 0 m hmlt]
        rw [List.getD_cons_succ]
        exact pairFlat_getD_fst _ m hmlt
      rw [htar]
      have hcnt := rowSpecAux_count_snd (discoveredPairs mol (fa.length - 1)) j 0 m hmlt
      rw [show 2 * (0 + m) + 2 = 2 * m + 2 from by omega] at hcnt
      rw [hcnt]
      by_cases hj1 : j = ((discoveredPairs mol (fa.length - 1)).getD m (0, 0)).1
      · subst hj1
        have hne : ((discoveredPairs mol (fa.length - 1)).getD m (0, 0)).2 ≠
            ((discoveredPairs mol (fa.length - 1)).getD m (0, 0)).1 := by omega
        rw [if_pos ⟨hne, rfl⟩, if_pos rfl]
      · have hcond : ¬(((discoveredPairs mol (fa.length - 1)).getD m (0, 0)).2 ≠ j ∧
            ((discoveredPairs mol (fa.length - 1)).getD m (0, 0)).1 = j) :=
          fun hc => hj1 hc.2.symm
        rw [if_neg hcond, if_neg hj1]
    · obtain ⟨m, hm, hmlt⟩ :
          ∃ m, b = 2 * m + 1 ∧ m < (discoveredPairs mol (fa.length - 1)).length :=
        ⟨b / 2, by omega, by omega⟩
      subst hm
      have htar : bondTarget (phase1 mol cf fa) (2 * m + 1) =
          ((discoveredPairs mol (fa.length - 1)).getD m (0, 0)).2 := by
        simp only [bondTarget]
        rw [c4, c3, List.getD_cons_succ]
        rw [show (revbSpec 0 (discoveredPairs mol (fa.length - 1))).getD (2 * m) 0 =
            2 * m + 2 from by simpa using revbSpec_getD_fst _ 0 m hmlt]
        rw [show 2 * m + 2 = 2 * m + 1 + 1 from by omega, List.getD_cons_succ]
        exact pairFlat_getD_snd _ m hmlt
      rw [htar]
      have hcnt := rowSpecAux_count_fst (discoveredPairs mol (fa.length - 1)) j 0 m hmlt
      rw [show 2 * (0 + m) + 1 = 2 * m + 1 from by omega] at hcnt
      rw [hcnt]
      by_cases hj1 : ((discoveredPairs mol (fa.length - 1)).getD m (0, 0)).2 = j
      · subst hj1
        rw [if_pos rfl]
      · have hj2 : ¬(j = ((discoveredPairs mol (fa.length - 1)).getD m (0, 0)).2) :=
          fun h => hj1 h.symm
        rw [if_neg hj1, if_neg hj2]
  · rw [c6 j]
    exact List.Pairwise.imp (fun h => Nat.ne_of_lt h) (rowSpecAux_pairwise _ j 0)
  · intro hx
    rw [c6 j] at hx
    have hlb := rowSpecAux_mem_lb _ j 0 x hx
    have hub := rowSpecAux_mem_ub _ j 0 x hx
    rw [c1]
    omega

/-- Witness for C9: the 3-atom chain, bond id 1 (pointing into atom 2), row 2,
entry 1: the count in row 2 really is 1 and the entry-bound implication is
discharged at the inhabitant 1. -/
theorem C9_witness :
    1 ≤ 1 ∧ 1 ≤ (phase1 molChain 2 faChain).num_bonds ∧
      2 < (phase1 molChain 2 faChain).atom_to_incoming_bonds.length ∧
      1 ∈ (phase1 molChain 2 faChain).atom_to_incoming_bonds.getD 2 [] ∧
      ((phase1 molChain 2 faChain).atom_to_incoming_bonds.getD 0 [] = [] ∧
        ((phase1 molChain 2 faChain).atom_to_incoming_bonds.getD 2 []).count 1 =
          (if 2 = bondTarget (phase1 molChain 2 faChain) 1 then 1 else 0) ∧
        ((phase1 molChain 2 faChain).atom_to_incoming_bonds.getD 2 []).Nodup ∧
        (1 ≤ 1 ∧ 1 ≤ (phase1 molChain 2 faChain).num_bonds)) :=
  ⟨by decide, by decide, by decide, by decide,
    ⟨(C9_incoming_bonds_unique molChain 2 faChain 1 2 1 (by decide) (by decide)
        (by decide)).1,
      (C9_incoming_bonds_unique molChain 2 faChain 1 2 1 (by decide) (by decide)
        (by decide)).2.1,
      (C9_incoming_bonds_unique molChain 2 faChain 1 2 1 (by decide) (by decide)
        (by decide)).2.2.1,
      (C9_incoming_bonds_unique molChain 2 faChain 1 2 1 (by decide) (by decide)
        (by decide)).2.2.2 (by decide)⟩⟩

/-- C10: the reverse-bond scrub is row-local: a scrub step at row `count`
leaves every other row unchanged, in the full scrub the final value of row `j`
is its own pre-scrub row with the given id zeroed out, independent of every
other row, and in `_MapperDMPNN` itself the final mapping row `j` is the
fancy-indexed (copied, unaliased) row `j` with only bond `j`'s own reverse id
scrubbed — even when several directed bonds share an initial atom. -/
theorem C10_scrub_row_local (m : List (List Nat)) (count r j : Nat) (bs : List Nat)
    (mol : RDMol) (cf : Nat) (fa : List (List Rat)) :
    (j ≠ count → (scrubStep m count r).getD j [] = m.getD j []) ∧
      (bs.length = m.length → j < m.length →
        (replace_rev_bonds m bs).getD j [] = zeroOut (m.getD j []) (bs.getD j 0)) ∧
      (j < (mkMapper mol cf fa).mapping.length →
        (mkMapper mol cf fa).mapping.getD j [] =
          zeroOut
            ((rawMapping
              (modify_based_on_max_bonds (fa.length - 1)
                (phase1 mol cf fa).atom_to_incoming_bonds)
              (phase1 mol cf fa).bond_to_ini_atom).getD j [])
            ((phase1 mol cf fa).b2revb.getD j 0)) := by
  refine ⟨?_, ?_, ?_⟩
  · intro hne
    exact getD_set_ne _ _ _ _ _ (fun h => hne h.symm)
  · intro hlen hj
    exact replace_rev_bonds_getD m bs j hj (by omega)
  · intro hj
    rw [mkMapper_mapping] at hj ⊢
    have hlenraw :
        (rawMapping
          (modify_based_on_max_bonds (fa.length - 1)
            (phase1 mol cf fa).atom_to_incoming_bonds)
          (phase1 mol cf fa).bond_to_ini_atom).length =
        2 * (discoveredPairs mol (fa.length - 1)).length + 1 := by
      rw [rawMapping, List.length_map]
      exact phase1_b2ia_length mol cf fa
    have hlenrev := phase1_b2revb_length mol cf fa
    have hj2 : j <
        (rawMapping
          (modify_based_on_max_bonds (fa.length - 1)
            (phase1 mol cf fa).atom_to_incoming_bonds)
          (phase1 mol cf fa).bond_to_ini_atom).length := by
      rw [← replace_rev_bonds_length _ (phase1 mol cf fa).b2revb]
      exact hj
    refine replace_rev_bonds_getD _ _ j hj2 ?_
    rw [hlenrev]
    rw [hlenraw] at hj2
    omega

/-- Witness for C10: a two-row mapping where scrubbing row 0 leaves row 1
untouched, a full scrub evaluated at row 1, and the chain molecule's mapper
evaluated at directed bond 1. -/
theorem C10_witness :
    ((scrubStep [[1, 2], [3]] 0 5).getD 1 [] =
        ([[1, 2], [3]] : List (List Nat)).getD 1 []) ∧
      (replace_rev_bonds [[1, 2], [3]] [2, 3]).getD 1 [] =
        zeroOut (([[1, 2], [3]] : List (List Nat)).getD 1 [])
          (([2, 3] : List Nat).getD 1 0) ∧
      ((mkMapper molChain 2 faChain).mapping.getD 1 [] =
        zeroOut
          ((rawMapping
            (modify_based_on_max_bonds (faChain.length - 1)
              (phase1 molChain 2 faChain).atom_to_incoming_bonds)
            (phase1 molChain 2 faChain).bond_to_ini_atom).getD 1 [])
          ((phase1 molChain 2 faChain).b2revb.getD 1 0)) :=
  ⟨(C10_scrub_row_local [[1, 2], [3]] 0 5 1 [2, 3] molChain 2 faChain).1 (by decide),
    (C10_scrub_row_local [[1, 2], [3]] 0 5 1 [2, 3] molChain 2 faChain).2.1 (by decide)
      (by decide),
    (C10_scrub_row_local [[1, 2], [3]] 0 5 1 [2, 3] molChain 2 faChain).2.2 (by decide)⟩

/-! ### Characterization of the map_reac_to_prod scans -/

theorem reac_loop_char (pm : Nat → Option Nat) :
    ∀ (xs : List Nat) (k : Nat) (acc : List (Nat × Nat) × List Nat),
    (List.enumFrom k xs).foldl (reac_scan_step pm) acc =
      (acc.1 ++ (List.enumFrom k xs).filterMap (fun p =>
          if 0 < p.2 then (pm p.2).map fun pid => (p.1, pid) else none),
        acc.2 ++ ((List.enumFrom k xs).filter (fun p =>
          (p.2 == 0) || (pm p.2).isNone)).map Prod.fst)
  | [], k, acc => by simp
  | v :: rest, k, acc => by
    rw [List.enumFrom_cons, List.foldl_cons, reac_loop_char pm rest (k + 1) _]
    by_cases hv : 0 < v
    · have hv0 : (v == 0) = false := beq_eq_false_iff_ne.mpr (by omega)
      cases hpm : pm v with
      | some pid =>
        simp [reac_scan_step, hv, hpm, hv0, List.filterMap_cons, List.filter_cons]
      | none =>
        simp [reac_scan_step, hv, hpm, hv0, List.filterMap_cons, List.filter_cons]
    · have hv0 : v = 0 := by omega
      subst hv0
      simp [reac_scan_step, List.filterMap_cons, List.filter_cons]

theorem prod_loop_only_char (mapnos : List Nat) :
    ∀ (xs : List Nat) (k : Nat) (acc : (Nat → Option Nat) × List Nat),
    ((List.enumFrom k xs).foldl (prod_scan_step mapnos) acc).2 =
      acc.2 ++ ((List.enumFrom k xs).filter (fun p =>
        (p.2 == 0) || !(decide (p.2 ∈ mapnos)))).map Prod.fst
  | [], _, _ => by simp
  | v :: rest, k, acc => by
    rw [List.enumFrom_cons, List.foldl_cons, prod_loop_only_char mapnos rest (k + 1) _]
    by_cases hv : 0 < v
    · have hv0 : (v == 0) = false := beq_eq_false_iff_ne.mpr (by omega)
      by_cases hmem : v ∈ mapnos
      · simp [prod_scan_step, hv, hmem, hv0, List.filter_cons]
      · simp [prod_scan_step, hv, hmem, hv0, List.filter_cons]
    · have hv0 : v = 0 := by omega
      subst hv0
      simp [prod_scan_step, List.filter_cons]

/-- C6: `map_reac_to_prod` never raises on lookup misses: every reactant atom
with map number 0, and every reactant atom whose positive map number is not a
key of the product table, lands in the only-reactant list in scan order; every
product atom with map number 0, and every product atom whose positive map
number is absent from the reactant's map-number set, lands in the only-product
list; every other reactant atom contributes exactly one reactant-index to
product-index entry to the returned dictionary. -/
theorem C6_map_reac_to_prod_total (mol_reac mol_prod : List Nat) :
    map_reac_to_prod mol_reac mol_prod =
      (mol_reac.enum.filterMap (fun p =>
          if 0 < p.2 then
            ((prod_map_to_id mol_reac mol_prod).1 p.2).map fun pid => (p.1, pid)
          else none),
        (mol_prod.enum.filter (fun p =>
            (p.2 == 0) || !(decide (p.2 ∈ mol_reac)))).map Prod.fst,
        (mol_reac.enum.filter (fun p =>
            (p.2 == 0) ||
              ((prod_map_to_id mol_reac mol_prod).1 p.2).isNone)).map Prod.fst) := by
  have hd : (map_reac_to_prod mol_reac mol_prod).1 =
      mol_reac.enum.filterMap (fun p =>
        if 0 < p.2 then
          ((prod_map_to_id mol_reac mol_prod).1 p.2).map fun pid => (p.1, pid)
        else none) := by
    show ((List.enumFrom 0 mol_reac).foldl
        (reac_scan_step (prod_map_to_id mol_reac mol_prod).1) ([], [])).1 = _
    rw [reac_loop_char]
    rfl
  have hr : (map_reac_to_prod mol_reac mol_prod).2.2 =
      (mol_reac.enum.filter (fun p =>
        (p.2 == 0) ||
          ((prod_map_to_id mol_reac mol_prod).1 p.2).isNone)).map Prod.fst := by
    show ((List.enumFrom 0 mol_reac).foldl
        (reac_scan_step (prod_map_to_id mol_reac mol_prod).1) ([], [])).2 = _
    rw [reac_loop_char]
    rfl
  have hp : (map_reac_to_prod mol_reac mol_prod).2.1 =
      (mol_prod.enum.filter (fun p =>
        (p.2 == 0) || !(decide (p.2 ∈ mol_reac)))).map Prod.fst := by
    show ((List.enumFrom 0 mol_prod).foldl
        (prod_scan_step mol_reac) ((fun _ => none), [])).2 = _
    rw [prod_loop_only_char]
    rfl
  exact Prod.ext_iff.mpr ⟨hd, Prod.ext_iff.mpr ⟨hp, hr⟩⟩

/-- C7: for null input the encoders return fixed sentinel vectors regardless
of the other arguments (the functions are pure, so every call agrees):
`atom_features` of `None` is the all-zero vector of length `ATOM_FDIM`, and
`bond_features` of `None` is the no-bond sentinel 1 followed by 13 zeros, of
length `BOND_FDIM = 14`. -/
theorem C7_null_sentinels (fg : Option (List Rat)) (only_atom_num : Bool) :
    atom_features none fg only_atom_num =
        List.replicate GraphConvConstants.ATOM_FDIM 0 ∧
      bond_features none = 1 :: List.replicate 13 0 ∧
      (bond_features none).length = GraphConvConstants.BOND_FDIM ∧
      GraphConvConstants.ATOM_FDIM = 133 := by
  refine ⟨rfl, rfl, ?_, ?_⟩
  · decide
  · decide

/-- C8: for an atom of atomic number 6 (carbon), `get_atomic_num_one_hot`
against the allowable set `list(range(100))` with the unknown bucket enabled
returns a vector of length 101 whose entry at index 5 (the atomic number minus
1) is 1 and whose other entries are all 0. -/
theorem C8_carbon_one_hot :
    get_atomic_num_one_hot (RDAtom.mk 6 4 0 0 4 "SP3" false 0)
        GraphConvConstants.ATOM_FEATURES_atomic_num true =
      List.replicate 5 0 ++ 1 :: List.replicate 95 0 ∧
      (get_atomic_num_one_hot (RDAtom.mk 6 4 0 0 4 "SP3" false 0)
        GraphConvConstants.ATOM_FEATURES_atomic_num true).length = 101 ∧
      (get_atomic_num_one_hot (RDAtom.mk 6 4 0 0 4 "SP3" false 0)
        GraphConvConstants.ATOM_FEATURES_atomic_num true).getD 5 0 = 1 ∧
      GraphConvConstants.ATOM_FEATURES_atomic_num = (List.range 100).map Int.ofNat := by
  refine ⟨?_, ?_, ?_, rfl⟩
  · decide
  · decide
  · decide
